import Mathlib

/-!
Verification development for the OpenChamber multiuser subsystem.

Part 1 embeds the tenant-isolation path helpers of
`lib/middleware/tenant.js` together with the POSIX path resolution they
rely on, `getUserDataPath` of `lib/users/storage.js`, the RBAC check
`hasPermission` of `lib/users/rbac.js`, and the instance sanitization of
`routes/instances.js`.

Part 2 models the OpenCode instance pool (`lib/opencode/pool.js`, whose
source is not part of the repository snapshot; the definitions there are
modelled from the specification's words) and proves the registry, port
allocator, health prober and concurrency properties against that model.
-/

/- ### POSIX path resolution, embedded for `lib/middleware/tenant.js` -/

/-- Split a character list on `/`, keeping empty segments, as
`p.split('/')` would. -/
def splitSlashAux : List Char → List Char → List String
  | [], acc => [String.mk acc.reverse]
  | c :: rest, acc =>
    if c = '/' then String.mk acc.reverse :: splitSlashAux rest []
    else splitSlashAux rest (c :: acc)

/-- All `/`-separated segments of a path string. -/
def splitSlash (s : String) : List String := splitSlashAux s.toList []

/-- Normalize the segments of an absolute path the way Node's
`path.posix.resolve` does: drop empty and `.` segments, let `..` pop the
last kept segment (and vanish at the root). -/
def normSegs (segs : List String) : List String :=
  segs.foldl
    (fun acc seg =>
      if seg = "" ∨ seg = "." then acc
      else if seg = ".." then acc.dropLast
      else acc ++ [seg]) []

/-- Reassemble normalized segments into an absolute path. -/
def joinSegs (segs : List String) : String :=
  segs.foldl (fun acc seg => acc ++ "/" ++ seg) ""

/-- Normalize an absolute path string. -/
def resolveAbs (s : String) : String :=
  let r := joinSegs (normSegs (splitSlash s))
  if r = "" then "/" else r

/-- JavaScript's `s.startsWith(p)`: a raw string prefix test. -/
def jsStartsWith (s p : String) : Bool := p.toList.isPrefixOf s.toList

/-- Node's `path.resolve(base, p)` for an absolute `base`: an absolute
`p` stands alone, otherwise `p` is appended to `base`; the result is
normalized. -/
def pathResolve (base p : String) : String :=
  if jsStartsWith p "/" then resolveAbs p
  else resolveAbs (base ++ "/" ++ p)

/-- `getUserDataPath` of `lib/users/storage.js`:
`path.join(MULTIUSER_DATA_DIR, 'users', userId)`, with the data
directory passed explicitly since it comes from the environment. -/
def getUserDataPath (dataDir userId : String) : String :=
  resolveAbs (dataDir ++ "/users/" ++ userId)

/-- `getTenantPath` of `lib/middleware/tenant.js`: resolve `filePath`
against the tenant's root and reject the result when it does not pass
the raw `startsWith` test against the root. -/
def getTenantPath (dataDir tenantId filePath : String) : Except String String :=
  let tenantRoot := getUserDataPath dataDir tenantId
  let resolved := pathResolve tenantRoot filePath
  if jsStartsWith resolved tenantRoot then Except.ok resolved
  else Except.error "Path traversal detected"

/-- `isPathInTenant` of `lib/middleware/tenant.js`: `path.resolve(checkPath)`
(resolved against the process working directory `cwd`) must pass the raw
`startsWith` test against the tenant root. -/
def isPathInTenant (cwd dataDir tenantId checkPath : String) : Bool :=
  let tenantRoot := getUserDataPath dataDir tenantId
  let resolved := pathResolve cwd checkPath
  jsStartsWith resolved tenantRoot

/-- A path lies within a root directory: it is the root itself or a
descendant of it (the root followed by a separator). -/
def withinRoot (root p : String) : Bool :=
  p = root || jsStartsWith p (root ++ "/")

/- ### RBAC: `hasPermission` of `lib/users/rbac.js` -/

/-- A stored role: `permissions` may be missing (`role.permissions || []`). -/
structure Role where
  permissions : Option (List String)
deriving DecidableEq

/-- The slice of a user the permission check reads: `user.role`, which in
JavaScript may be absent (`none`) or any string (the empty string is
falsy and treated like an absent role). -/
structure User where
  role : Option String
deriving DecidableEq

/-- JavaScript truthiness of `user.role`. -/
def roleFalsy (r : Option String) : Bool :=
  match r with
  | none => true
  | some s => s = ""

/-- The scope of a permission string: the part before the first `:`
(`const [scope] = permission.split(':')`). -/
def scopeOf (permission : String) : String :=
  match permission.splitOn ":" with
  | [] => ""
  | s :: _ => s

/-- `hasPermission(user, permission)` of `lib/users/rbac.js`, with the
role store (`getRole`) passed explicitly. -/
def hasPermission (getRole : String → Option Role) (user : Option User)
    (permission : String) : Bool :=
  match user with
  | none => false
  | some u =>
    match u.role with
    | none => false
    | some r =>
      if r = "" then false
      else if r = "admin" then true
      else
        match getRole r with
        | none => false
        | some role =>
          let permissions := role.permissions.getD []
          if permissions.contains "*" then true
          else if permissions.contains permission then true
          else if permissions.contains (scopeOf permission ++ ":*") then true
          else false

/- ### Instance sanitization: `routes/instances.js` -/

/-- The per-instance configuration the route exposes. -/
structure InstConfig where
  maxMemoryMB : Nat
deriving DecidableEq

/-- The full in-memory instance record the route code reads, including
the secret `credential`. -/
structure InstanceFull where
  id : String
  userId : String
  port : Nat
  status : String
  createdAt : Nat
  lastActivity : Nat
  config : InstConfig
  credential : String
deriving DecidableEq

/-- A JSON-shaped value, enough to state what an API response contains. -/
inductive JVal where
  | str (s : String)
  | num (n : Nat)
  | obj (fields : List (String × JVal))

/-- The keys of a JSON object value. -/
def keysOf : JVal → List String
  | JVal.obj fields => fields.map Prod.fst
  | _ => []

/-- `sanitizeInstance` of `routes/instances.js` lines 306-319: the exact
field list the route builds for an API response. -/
def sanitizeInstance (inst : InstanceFull) : JVal :=
  JVal.obj [
    ("id", JVal.str inst.id),
    ("userId", JVal.str inst.userId),
    ("port", JVal.num inst.port),
    ("status", JVal.str inst.status),
    ("createdAt", JVal.num inst.createdAt),
    ("lastActivity", JVal.num inst.lastActivity),
    ("config", JVal.obj [("maxMemoryMB", JVal.num inst.config.maxMemoryMB)])]

/-- Modelled from the spec: the instance snapshot of `getStats()` in
`lib/opencode/pool.js` (not part of the repository snapshot) — "snapshot
of all instances (sanitized — credential never included)". -/
def getStatsInstances (pool : List InstanceFull) : List JVal :=
  pool.map sanitizeInstance

/-- The `GET /api/instances` handler of `routes/instances.js` lines
13-45, restricted to the instance lists it returns: the admin
all-instances branch returns the pool's sanitized snapshot, the
per-user branch the caller's own instance, sanitized. -/
def listInstancesResponse (pool : List InstanceFull) (uid : String)
    (canViewAll allQuery : Bool) : List JVal :=
  if canViewAll && allQuery then getStatsInstances pool
  else
    match pool.find? (fun i => i.userId == uid) with
    | some inst => [sanitizeInstance inst]
    | none => []

/- ### The instance pool, modelled from the specification
(`lib/opencode/pool.js` is not part of the repository snapshot; its
callers in `routes/instances.js` and the specification fix its
behaviour). -/

/-- Modelled from the spec: the `status` state machine of an instance
record in `lib/opencode/pool.js`. -/
inductive InstStatus where
  | starting | running | stopping | stopped | error
deriving DecidableEq, Repr

/-- Modelled from the spec: an instance record of the pool's registry in
`lib/opencode/pool.js`: tenant, leased port, lifecycle status,
timestamps and a destroyed marker. -/
structure InstanceRec where
  instId : Nat
  tenantId : String
  port : Nat
  status : InstStatus
  createdAt : Nat
  lastActivity : Nat
  destroyed : Bool
deriving DecidableEq, Repr

/-- Modelled from the spec: the pool's configuration — the port range
and the inactivity threshold. -/
structure PoolConfig where
  portStart : Nat
  portCount : Nat
  inactivityMs : Nat
deriving DecidableEq, Repr

/-- Modelled from the spec: the shared mutable state of
`lib/opencode/pool.js` — the tenant registry (as the history of created
records), the leased-port set and the allocator's rotating cursor. -/
structure PoolState where
  instances : List InstanceRec
  leased : List Nat
  cursor : Nat
  nextId : Nat
deriving DecidableEq, Repr

/-- Modelled from the spec: the typed creation errors of
`lib/opencode/pool.js` — `NoPortsAvailable`, `SpawnFailure`,
`HealthTimeout`. -/
inductive PoolError where
  | noPortsAvailable | spawnFailure | healthTimeout
deriving DecidableEq, Repr

/-- An instance record that has not been destroyed. -/
def liveRec (i : InstanceRec) : Bool := !i.destroyed

/-- The live instance records a tenant currently owns. -/
def liveFor (s : PoolState) (t : String) : List InstanceRec :=
  s.instances.filter (fun i => liveRec i && i.tenantId == t)

/-- The configured port range. -/
def portRange (cfg : PoolConfig) : List Nat :=
  (List.range cfg.portCount).map (fun k => cfg.portStart + k)

/-- Modelled from the spec: the allocator's scan order — the full range,
rotated to begin at the cursor (round-robin). -/
def scanOrder (cfg : PoolConfig) (cursor : Nat) : List Nat :=
  (portRange cfg).rotate cursor

/-- Modelled from the spec: the first candidate port that is neither in
the in-process leased set nor reported unavailable by the OS
(`osFree`). -/
def findPort (osFree : Nat → Bool) (leased : List Nat) : List Nat → Option Nat
  | [] => none
  | p :: rest =>
    if !leased.contains p && osFree p then some p
    else findPort osFree leased rest

/-- Modelled from the spec: `allocate()` of the Port Allocator — scan the
range once from the rotating cursor; lease the first usable port and
advance the cursor past it, or fail with `NoPortsAvailable`. -/
def allocatePort (cfg : PoolConfig) (osFree : Nat → Bool) (s : PoolState) :
    Except PoolError (Nat × PoolState) :=
  match findPort osFree s.leased (scanOrder cfg s.cursor) with
  | none => Except.error PoolError.noPortsAvailable
  | some p =>
    Except.ok (p, { s with leased := p :: s.leased,
                           cursor := p + 1 - cfg.portStart })

/-- Modelled from the spec: `release(port)` of the Port Allocator —
remove the port from the leased set; releasing a port that is not leased
changes nothing. -/
def releasePort (p : Nat) (s : PoolState) : PoolState :=
  { s with leased := s.leased.erase p }

/-- Marking one tenant's live records destroyed. -/
def destroyMark (t : String) (i : InstanceRec) : InstanceRec :=
  if liveRec i && i.tenantId == t then
    { i with destroyed := true, status := InstStatus.stopped }
  else i

/-- Modelled from the spec: `destroyInstance(tenantId)` of
`lib/opencode/pool.js` — mark the tenant's live records destroyed and
release their ports; destruction never throws. -/
def destroyInstance (t : String) (s : PoolState) : PoolState :=
  let victims := liveFor s t
  { s with
    instances := s.instances.map (destroyMark t),
    leased := victims.foldl (fun l i => l.erase i.port) s.leased }

/-- Modelled from the spec: the environment one `getOrCreateInstance`
call observes — OS port availability, whether the spawn succeeds,
whether the starting probe succeeds, whether an existing instance passes
its health check, and the current time. -/
structure CreationEnv where
  osFree : Nat → Bool
  spawnOk : Bool
  probeOk : Bool
  healthExisting : Bool
  now : Nat

/-- The fresh registry record a successful creation inserts. -/
def mkRec (t : String) (p nid now : Nat) : InstanceRec :=
  { instId := nid, tenantId := t, port := p,
    status := InstStatus.running, createdAt := now,
    lastActivity := now, destroyed := false }

/-- Modelled from the spec: the creation path of `getOrCreateInstance` —
allocate a port, spawn, probe until healthy; on spawn failure or probe
timeout the port is released and a typed error propagates; on success
the new record enters the registry. -/
def createInstance (cfg : PoolConfig) (env : CreationEnv) (t : String)
    (s : PoolState) : Except PoolError InstanceRec × PoolState :=
  match allocatePort cfg env.osFree s with
  | Except.error e => (Except.error e, s)
  | Except.ok (p, s1) =>
    if !env.spawnOk then (Except.error PoolError.spawnFailure, releasePort p s1)
    else if !env.probeOk then (Except.error PoolError.healthTimeout, releasePort p s1)
    else
      (Except.ok (mkRec t p s1.nextId env.now),
       { s1 with instances := mkRec t p s1.nextId env.now :: s1.instances,
                 nextId := s1.nextId + 1 })

/-- Refreshing one record's `lastActivity`. -/
def touchRec (activityId now : Nat) (j : InstanceRec) : InstanceRec :=
  if j.instId = activityId then { j with lastActivity := now } else j

/-- Modelled from the spec: `getOrCreateInstance(tenantId, config)` of
`lib/opencode/pool.js` — return the tenant's live instance after
refreshing its activity when it is healthy; destroy it first when it is
not; create a fresh instance when none is live. -/
def getOrCreateInstance (cfg : PoolConfig) (env : CreationEnv) (t : String)
    (s : PoolState) : Except PoolError InstanceRec × PoolState :=
  match liveFor s t with
  | i :: _ =>
    if env.healthExisting then
      (Except.ok { i with lastActivity := env.now },
       { s with instances := s.instances.map (touchRec i.instId env.now) })
    else
      createInstance cfg env t (destroyInstance t s)
  | [] => createInstance cfg env t s

/-- Modelled from the spec: one step of the Reaper's sweep — skip
destroyed, `stopping` and `stopped` records; destroy the tenant of an
unhealthy record; destroy the tenant of a record idle past the
threshold. -/
def reapOne (healthy : InstanceRec → Bool) (now : Nat) (cfg : PoolConfig)
    (s : PoolState) (i : InstanceRec) : PoolState :=
  if i.destroyed || i.status == InstStatus.stopping
      || i.status == InstStatus.stopped then s
  else if !healthy i then destroyInstance i.tenantId s
  else if cfg.inactivityMs < now - i.lastActivity then destroyInstance i.tenantId s
  else s

/-- Modelled from the spec: the Reaper's sweep over a snapshot of the
registry; an error destroying one instance never aborts the sweep. -/
def reapSweep (healthy : InstanceRec → Bool) (now : Nat) (cfg : PoolConfig)
    (s : PoolState) : PoolState :=
  s.instances.foldl (reapOne healthy now cfg) s

/-- Modelled from the spec: the operations the pool's collaborators can
interleave — get-or-create, explicit destroy, and a Reaper sweep, each
with the environment it observes. -/
inductive PoolOp where
  | getOrCreate (env : CreationEnv) (t : String)
  | destroy (t : String)
  | reap (healthy : InstanceRec → Bool) (now : Nat)

/-- The state reached after one operation. -/
def applyOp (cfg : PoolConfig) (s : PoolState) : PoolOp → PoolState
  | PoolOp.getOrCreate env t => (getOrCreateInstance cfg env t s).2
  | PoolOp.destroy t => destroyInstance t s
  | PoolOp.reap healthy now => reapSweep healthy now cfg s

/-- The empty pool at startup. -/
def initState : PoolState := { instances := [], leased := [], cursor := 0, nextId := 0 }

/-- The state after a sequence of operations from startup: every
observation point of the system is such a state. -/
def runOps (cfg : PoolConfig) (ops : List PoolOp) : PoolState :=
  ops.foldl (applyOp cfg) initState

/-- No tenant owns two live records. -/
def tenantsOk (s : PoolState) : Prop :=
  (s.instances.filter liveRec).Pairwise (fun i j => i.tenantId ≠ j.tenantId)

/-- No port belongs to two live records, and every live record's port is
in the leased set. -/
def portsOk (s : PoolState) : Prop :=
  (s.instances.filter liveRec).Pairwise (fun i j => i.port ≠ j.port) ∧
  ∀ i ∈ s.instances, liveRec i = true → i.port ∈ s.leased

/-- The pool's inductive invariant. -/
def poolInv (s : PoolState) : Prop := tenantsOk s ∧ portsOk s

/- ### Health prober, modelled from the specification -/

/-- Modelled from the spec: what the probe's HTTP body yields — either
no parseable structure, or a parsed body with an explicit boolean
`healthy` field. -/
inductive ProbeBody where
  | malformed
  | healthField (healthy : Bool)
deriving DecidableEq, Repr

/-- Modelled from the spec: the observable outcome of one health probe —
a timeout, a refused connection, or an HTTP response with a status code
and a body. -/
inductive ProbeOutcome where
  | timeout
  | connectionRefused
  | response (status : Nat) (body : ProbeBody)
deriving DecidableEq, Repr

/-- Modelled from the spec: `check(instance)` of the Health Prober in
`lib/opencode/pool.js` — every failure (timeout, refused connection,
non-2xx status, malformed body) resolves to `false`; only a 2xx response
whose body explicitly reports `healthy: true` yields `true`. -/
def checkHealth : ProbeOutcome → Bool
  | ProbeOutcome.response status (ProbeBody.healthField h) =>
    (200 ≤ status && status < 300) && h
  | _ => false

/- ### Per-tenant creation serialization, modelled from the
specification: N concurrent get-or-create callers for one tenant -/

/-- Modelled from the spec: where one get-or-create caller for the
tenant stands — about to enter, awaiting another caller's in-flight
creation, holding the in-flight creation, or finished with a reference
to instance `ref`. -/
inductive CallerPhase where
  | idle
  | waiting
  | creating
  | done (ref : Nat)
deriving DecidableEq, Repr

/-- Modelled from the spec: the state shared by N concurrent
get-or-create callers for one tenant — each caller's phase, whether a
creation is in flight for the tenant, the tenant's registered instance,
how many worker processes were spawned, and the next instance
identifier. -/
structure ConcState where
  callers : List CallerPhase
  inflight : Bool
  registered : Option Nat
  spawnCount : Nat
  nextRef : Nat
deriving DecidableEq, Repr

/-- Modelled from the spec: one caller's next move. An idle caller
returns the registered instance when there is one, awaits an in-flight
creation when there is one, and otherwise starts the creation itself
(spawning the one worker process). A waiting caller returns the
registered instance once it appears. The creating caller finishes by
registering the new instance. -/
def stepCaller (s : ConcState) : CallerPhase → CallerPhase × ConcState
  | CallerPhase.idle =>
    match s.registered with
    | some r => (CallerPhase.done r, s)
    | none =>
      if s.inflight then (CallerPhase.waiting, s)
      else (CallerPhase.creating,
            { s with inflight := true, spawnCount := s.spawnCount + 1 })
  | CallerPhase.waiting =>
    match s.registered with
    | some r => (CallerPhase.done r, s)
    | none => (CallerPhase.waiting, s)
  | CallerPhase.creating =>
    (CallerPhase.done s.nextRef,
     { s with inflight := false, registered := some s.nextRef,
              nextRef := s.nextRef + 1 })
  | CallerPhase.done r => (CallerPhase.done r, s)

/-- The scheduler lets caller `k` take its next move. -/
def stepConc (s : ConcState) (k : Nat) : ConcState :=
  match s.callers.get? k with
  | none => s
  | some ph =>
    let m := stepCaller s ph
    { m.2 with callers := m.2.callers.set k m.1 }

/-- N callers about to enter, no instance and no creation in flight. -/
def concInit (n : Nat) : ConcState :=
  { callers := List.replicate n CallerPhase.idle, inflight := false,
    registered := none, spawnCount := 0, nextRef := 0 }

/-- The state after the scheduler's interleaving `sched`. -/
def runConc (sched : List Nat) (s : ConcState) : ConcState :=
  sched.foldl stepConc s

/-- Every caller has finished with a reference. -/
def allDone (s : ConcState) : Prop :=
  ∀ ph ∈ s.callers, ∃ r, ph = CallerPhase.done r

/-- The concurrency model's inductive invariant: at most one caller is
creating (and one is exactly when a creation is in flight), an in-flight
creation precedes registration, the spawn count is determined by the
creation/registration phase, and a finished caller's reference is the
registered instance. -/
def concInv (s : ConcState) : Prop :=
  (∀ i j : Nat, s.callers.get? i = some CallerPhase.creating →
      s.callers.get? j = some CallerPhase.creating → i = j) ∧
  (s.inflight = false →
    ∀ i : Nat, s.callers.get? i ≠ some CallerPhase.creating) ∧
  (s.inflight = true → ∃ i, s.callers.get? i = some CallerPhase.creating) ∧
  (s.inflight = true → s.registered = none) ∧
  s.spawnCount = ((if s.inflight then 1 else 0) +
    (if s.registered.isSome then 1 else 0)) ∧
  (∀ ph ∈ s.callers, ∀ r, ph = CallerPhase.done r → s.registered = some r)

/- ### Concrete configurations used by the scenario theorems -/

/-- A pool with an empty port range: every allocation fails. -/
def cfg0 : PoolConfig := { portStart := 9000, portCount := 0, inactivityMs := 0 }

/-- A benign creation environment. -/
def env0 : CreationEnv :=
  { osFree := fun _ => true, spawnOk := true, probeOk := true,
    healthExisting := true, now := 0 }

/-- A pool with a port range of size 3. -/
def cfg3 : PoolConfig := { portStart := 9000, portCount := 3, inactivityMs := 0 }

/-- An OS with every port bindable. -/
def osAll : Nat → Bool := fun _ => true

/-- The state after one successful allocation from the size-3 range. -/
def allocOnce (s : PoolState) : PoolState :=
  match allocatePort cfg3 osAll s with
  | Except.ok r => r.2
  | Except.error _ => s

/-- One, two and three allocations into the size-3 range. -/
def sAfter1 : PoolState := allocOnce initState

/-- See `sAfter1`. -/
def sAfter2 : PoolState := allocOnce sAfter1

/-- See `sAfter1`. -/
def sAfter3 : PoolState := allocOnce sAfter2

/- ### Theorems -/

/-- C9: the path-containment claim fails on the code: with the data
directory `/data`, `getTenantPath "alice" "../aliceX/secret"` returns
`/data/users/aliceX/secret` without throwing — a path outside alice's
root `/data/users/alice` — because the guard is a raw string-prefix
test; `isPathInTenant` accepts `/data/users/aliceX` the same way. -/
theorem getTenantPath_escapes_tenant_root :
    getTenantPath "/data" "alice" "../aliceX/secret" =
      Except.ok "/data/users/aliceX/secret" ∧
    withinRoot (getUserDataPath "/data" "alice") "/data/users/aliceX/secret" = false ∧
    isPathInTenant "/" "/data" "alice" "/data/users/aliceX" = true ∧
    withinRoot (getUserDataPath "/data" "alice") "/data/users/aliceX" = false :=
  ⟨rfl, rfl, rfl, rfl⟩

/-- C4: the health check is a total boolean classifier: timeout, refused
connection, malformed body and non-2xx status all yield `false`; it
yields `true` exactly on a 2xx response whose body explicitly reports
`healthy: true`; in particular HTTP 200 with body `healthy: false` is
classified unhealthy. -/
theorem checkHealth_classification :
    (∀ o : ProbeOutcome, checkHealth o = true ∨ checkHealth o = false) ∧
    checkHealth ProbeOutcome.timeout = false ∧
    checkHealth ProbeOutcome.connectionRefused = false ∧
    (∀ st, checkHealth (ProbeOutcome.response st ProbeBody.malformed) = false) ∧
    (∀ st b, st < 200 ∨ 300 ≤ st → checkHealth (ProbeOutcome.response st b) = false) ∧
    (∀ o, checkHealth o = true ↔
      ∃ st, 200 ≤ st ∧ st < 300 ∧
        o = ProbeOutcome.response st (ProbeBody.healthField true)) ∧
    checkHealth (ProbeOutcome.response 200 (ProbeBody.healthField false)) = false := by
  refine ⟨fun o => Bool.eq_false_or_eq_true (checkHealth o), rfl, rfl, fun st => rfl, ?_, ?_, rfl⟩
  · intro st b h
    cases b with
    | malformed => rfl
    | healthField hb =>
      simp only [checkHealth, Bool.and_eq_false_iff]
      left
      rcases h with h | h
      · left; simp; omega
      · right; simp; omega
  · intro o
    cases o with
    | timeout => simp [checkHealth]
    | connectionRefused => simp [checkHealth]
    | response st b =>
      cases b with
      | malformed => simp [checkHealth]
      | healthField hb =>
        cases hb with
        | true => simp [checkHealth]
        | false => simp [checkHealth]

/-- C8: every instance object the list endpoint returns — in the
per-user branch as well as the admin all-instances branch — carries
exactly the sanitized field list and never a `credential` key, and the
sanitized object does not depend on the credential at all. -/
theorem list_instances_never_expose_credential :
    ∀ (pool : List InstanceFull) (uid : String) (canViewAll allQuery : Bool),
      (∀ v ∈ listInstancesResponse pool uid canViewAll allQuery,
        keysOf v = ["id", "userId", "port", "status", "createdAt",
          "lastActivity", "config"] ∧ "credential" ∉ keysOf v) ∧
      (∀ inst c, sanitizeInstance { inst with credential := c } =
        sanitizeInstance inst) := by
  intro pool uid canViewAll allQuery
  have hk : ∀ inst : InstanceFull,
      keysOf (sanitizeInstance inst) = ["id", "userId", "port", "status",
        "createdAt", "lastActivity", "config"] := fun _ => rfl
  have hc : "credential" ∉ (["id", "userId", "port", "status",
      "createdAt", "lastActivity", "config"] : List String) := by decide
  refine ⟨?_, fun inst c => rfl⟩
  intro v hv
  unfold listInstancesResponse at hv
  split at hv
  · rcases List.mem_map.mp hv with ⟨i, _, rfl⟩
    exact ⟨hk i, by rw [hk i]; exact hc⟩
  · revert hv
    split
    · intro hv
      rcases List.mem_singleton.mp hv with rfl
      exact ⟨hk _, by rw [hk]; exact hc⟩
    · intro hv; cases hv

/-- C10: `hasPermission` returns `true` exactly when the user is present
with a non-empty role that is either the super-admin role `admin`
(regardless of the permission and of the role store) or a stored role
whose permission list contains the wildcard `*`, the exact permission
string, or `scope:*` for the permission's scope; in every other case —
no user, absent or empty role, unknown role, no matching entry — it
returns `false`. -/
theorem hasPermission_characterization :
    ∀ (getRole : String → Option Role) (user : Option User) (permission : String),
      hasPermission getRole user permission = true ↔
        ∃ u, user = some u ∧ ∃ r, u.role = some r ∧ r ≠ "" ∧
          (r = "admin" ∨
            ∃ role, getRole r = some role ∧
              ((role.permissions.getD []).contains "*" = true ∨
               (role.permissions.getD []).contains permission = true ∨
               (role.permissions.getD []).contains
                 (scopeOf permission ++ ":*") = true)) := by
  intro getRole user permission
  cases user with
  | none => simp [hasPermission]
  | some u =>
    cases hu : u.role with
    | none => simp [hasPermission, hu]
    | some r =>
      by_cases hr0 : r = ""
      · subst hr0
        simp [hasPermission, hu]
      · by_cases hra : r = "admin"
        · subst hra
          simp [hasPermission, hu, hr0]
        · simp only [hasPermission, hu, if_neg hr0, if_neg hra]
          cases hg : getRole r with
          | none => simp [hg, hu, hr0, hra]
          | some role =>
            simp only [hg]
            split
            · next h1 =>
              rw [List.elem_iff] at h1
              simp [hu, hr0, hra, hg, h1]
            · split
              · next h2 =>
                rw [List.elem_iff] at h2
                simp [hu, hr0, hra, hg, h2]
              · split
                · next h3 =>
                  rw [List.elem_iff] at h3
                  simp [hu, hr0, hra, hg, h3]
                · next h1 h2 h3 =>
                  rw [List.elem_iff] at h1 h2 h3
                  simp [hu, hr0, hra, hg, h1, h2, h3]

theorem liveRec_destroyMark (t : String) (i : InstanceRec) :
    liveRec (destroyMark t i) = (liveRec i && !(i.tenantId == t)) := by
  unfold destroyMark
  split
  · next h =>
    simp only [Bool.and_eq_true] at h
    simp [liveRec, h.2]
  · next h =>
    simp only [Bool.and_eq_true, not_and] at h
    cases h1 : liveRec i with
    | false => simp [h1]
    | true => simp [h1, h h1]

theorem tenantId_destroyMark (t : String) (i : InstanceRec) :
    (destroyMark t i).tenantId = i.tenantId := by
  unfold destroyMark; split <;> rfl

theorem port_destroyMark (t : String) (i : InstanceRec) :
    (destroyMark t i).port = i.port := by
  unfold destroyMark; split <;> rfl

theorem destroyMark_eq_self (t : String) (i : InstanceRec)
    (h : ¬(liveRec i && i.tenantId == t) = true) : destroyMark t i = i := by
  unfold destroyMark
  exact if_neg h

theorem destroyMark_idem (t : String) (i : InstanceRec) :
    destroyMark t (destroyMark t i) = destroyMark t i := by
  apply destroyMark_eq_self
  rw [liveRec_destroyMark, tenantId_destroyMark]
  cases h : (i.tenantId == t) <;> simp

theorem liveRec_touchRec (a n : Nat) (j : InstanceRec) :
    liveRec (touchRec a n j) = liveRec j := by
  unfold touchRec; split <;> rfl

theorem tenantId_touchRec (a n : Nat) (j : InstanceRec) :
    (touchRec a n j).tenantId = j.tenantId := by
  unfold touchRec; split <;> rfl

theorem port_touchRec (a n : Nat) (j : InstanceRec) :
    (touchRec a n j).port = j.port := by
  unfold touchRec; split <;> rfl

theorem filter_live_map_destroy (t : String) (l : List InstanceRec) :
    (l.map (destroyMark t)).filter liveRec
      = (l.filter liveRec).filter (fun i => !(i.tenantId == t)) := by
  induction l with
  | nil => rfl
  | cons i l ih =>
    simp only [List.map_cons, List.filter_cons]
    by_cases h1 : liveRec i = true
    · by_cases h2 : (i.tenantId == t) = true
      · rw [liveRec_destroyMark]
        simp [h1, h2, ih]
      · rw [liveRec_destroyMark]
        have : destroyMark t i = i := destroyMark_eq_self t i (by simp [h2])
        simp only [Bool.not_eq_true] at h2
        simp [h1, h2, ih, this]
    · rw [liveRec_destroyMark]
      simp only [Bool.not_eq_true] at h1
      simp [h1, ih]

theorem liveFor_map_destroy (t : String) (l : List InstanceRec) :
    (l.map (destroyMark t)).filter (fun i => liveRec i && i.tenantId == t) = [] := by
  induction l with
  | nil => rfl
  | cons i l ih =>
    simp only [List.map_cons, List.filter_cons]
    rw [liveRec_destroyMark, tenantId_destroyMark]
    by_cases h2 : (i.tenantId == t) = true
    · simp [h2, ih]
    · simp only [Bool.not_eq_true] at h2
      simp [h2, ih]

theorem liveFor_destroy (t : String) (s : PoolState) :
    liveFor (destroyInstance t s) t = [] := by
  unfold liveFor destroyInstance
  exact liveFor_map_destroy t s.instances

theorem mem_foldl_erase_of_ne (victims : List InstanceRec) (x : Nat) :
    ∀ l : List Nat, x ∈ l → (∀ v ∈ victims, x ≠ v.port) →
      x ∈ victims.foldl (fun acc v => acc.erase v.port) l := by
  induction victims with
  | nil => intro l hx _; exact hx
  | cons v victims ih =>
    intro l hx hne
    simp only [List.foldl_cons]
    exact ih _ ((List.mem_erase_of_ne (hne v (List.mem_cons_self v victims))).mpr hx)
      (fun w hw => hne w (List.mem_cons_of_mem v hw))

theorem mem_of_mem_foldl_erase (victims : List InstanceRec) (x : Nat) :
    ∀ l : List Nat, x ∈ victims.foldl (fun acc v => acc.erase v.port) l → x ∈ l := by
  induction victims with
  | nil => intro l hx; exact hx
  | cons v victims ih =>
    intro l hx
    exact List.mem_of_mem_erase (ih _ hx)

theorem poolInv_destroy {s : PoolState} (t : String) (h : poolInv s) :
    poolInv (destroyInstance t s) := by
  have ht := h.1
  have hp := h.2.1
  have hl := h.2.2
  refine ⟨?_, ?_, ?_⟩
  · unfold tenantsOk destroyInstance
    simp only
    rw [filter_live_map_destroy]
    exact ht.sublist (List.filter_sublist _)
  · unfold portsOk tenantsOk at *
    simp only [destroyInstance]
    rw [filter_live_map_destroy]
    exact hp.sublist (List.filter_sublist _)
  · intro i hi hlive
    simp only [destroyInstance, List.mem_map] at hi
    obtain ⟨j, hj, rfl⟩ := hi
    rw [liveRec_destroyMark, Bool.and_eq_true] at hlive
    obtain ⟨hjl, hjt⟩ := hlive
    have hbeq : (j.tenantId == t) = false := by
      cases h' : (j.tenantId == t) with
      | false => rfl
      | true => rw [h'] at hjt; simp at hjt
    have heq : destroyMark t j = j := destroyMark_eq_self t j (by simp [hbeq])
    rw [heq]
    have hjt2 : ¬j.tenantId = t := by
      intro hE; rw [hE] at hbeq; simp at hbeq
    simp only [destroyInstance]
    apply mem_foldl_erase_of_ne
    · exact hl j hj hjl
    · intro v hv
      unfold liveFor at hv
      rw [List.mem_filter, Bool.and_eq_true] at hv
      have hvmem := hv.1
      have hvl := hv.2.1
      have hvt := hv.2.2
      rw [beq_iff_eq] at hvt
      have hjv : j ≠ v := by
        intro hE; rw [hE] at hjt2; exact hjt2 hvt
      have hjm : j ∈ s.instances.filter liveRec := List.mem_filter.mpr ⟨hj, hjl⟩
      have hvm : v ∈ s.instances.filter liveRec := List.mem_filter.mpr ⟨hvmem, hvl⟩
      exact hp.forall (fun a b hab => (hab ∘ Eq.symm)) hjm hvm hjv

theorem findPort_some (osFree : Nat → Bool) (leased : List Nat) :
    ∀ (cand : List Nat) (p : Nat), findPort osFree leased cand = some p →
      p ∈ cand ∧ leased.contains p = false ∧ osFree p = true := by
  intro cand
  induction cand with
  | nil => intro p h; cases h
  | cons q rest ih =>
    intro p h
    unfold findPort at h
    split at h
    · next hc =>
      cases h
      simp only [Bool.and_eq_true, Bool.not_eq_true'] at hc
      exact ⟨List.mem_cons_self _ _, hc.1, hc.2⟩
    · obtain ⟨h1, h2, h3⟩ := ih p h
      exact ⟨List.mem_cons_of_mem q h1, h2, h3⟩

theorem findPort_none (osFree : Nat → Bool) (leased : List Nat) :
    ∀ cand : List Nat, findPort osFree leased cand = none ↔
      ∀ p ∈ cand, p ∈ leased ∨ osFree p = false := by
  intro cand
  induction cand with
  | nil => simp [findPort]
  | cons q rest ih =>
    unfold findPort
    split
    · next hc =>
      simp only [Bool.and_eq_true, Bool.not_eq_true'] at hc
      constructor
      · intro h; cases h
      · intro h
        exfalso
        rcases h q (List.mem_cons_self q rest) with hq | hq
        · have hq2 : leased.contains q = true := List.elem_iff.mpr hq
          have hq3 := hc.1
          rw [hq2] at hq3
          cases hq3
        · rw [hc.2] at hq; cases hq
    · next hc =>
      rw [ih]
      constructor
      · intro h p hp
        rcases List.mem_cons.mp hp with rfl | hp2
        · by_cases hmem : p ∈ leased
          · exact Or.inl hmem
          · cases hos : osFree p with
            | false => exact Or.inr rfl
            | true =>
              exfalso
              apply hc
              simp [hos, List.elem_iff, hmem]
        · exact h p hp2
      · intro h p hp; exact h p (List.mem_cons_of_mem q hp)

theorem allocatePort_ok (cfg : PoolConfig) (osFree : Nat → Bool)
    (s : PoolState) (p : Nat) (s2 : PoolState)
    (h : allocatePort cfg osFree s = Except.ok (p, s2)) :
    s2.instances = s.instances ∧ s2.leased = p :: s.leased ∧
      p ∉ s.leased ∧ p ∈ scanOrder cfg s.cursor := by
  unfold allocatePort at h
  split at h
  · cases h
  · next q hf =>
    cases h
    obtain ⟨h1, h2, h3⟩ := findPort_some _ _ _ _ hf
    refine ⟨rfl, rfl, ?_, h1⟩
    intro hmem
    have hq2 : s.leased.contains p = true := List.elem_iff.mpr hmem
    rw [hq2] at h2
    cases h2

theorem allocatePort_error (cfg : PoolConfig) (osFree : Nat → Bool)
    (s : PoolState) (e : PoolError)
    (h : allocatePort cfg osFree s = Except.error e) :
    e = PoolError.noPortsAvailable := by
  unfold allocatePort at h
  split at h
  · cases h; rfl
  · cases h

theorem poolInv_components (s s2 : PoolState)
    (hi : s2.instances = s.instances) (hle : s2.leased = s.leased)
    (h : poolInv s) : poolInv s2 := by
  refine ⟨?_, ?_, ?_⟩
  · unfold tenantsOk; rw [hi]; exact h.1
  · show (s2.instances.filter liveRec).Pairwise (fun i j => i.port ≠ j.port)
    rw [hi]; exact h.2.1
  · intro i him hli
    rw [hle]
    rw [hi] at him
    exact h.2.2 i him hli

theorem liveFor_eq_nil_iff (s : PoolState) (t : String) :
    liveFor s t = [] ↔
      ∀ i ∈ s.instances, liveRec i = true → i.tenantId ≠ t := by
  unfold liveFor
  rw [List.filter_eq_nil_iff]
  constructor
  · intro h i hi hl hE
    exact h i hi (by simp [hl, hE])
  · intro h i hi hc
    rw [Bool.and_eq_true, beq_iff_eq] at hc
    exact h i hi hc.1 hc.2

theorem poolInv_create (cfg : PoolConfig) (env : CreationEnv) (t : String)
    (s : PoolState) (h : poolInv s) (he : liveFor s t = []) :
    poolInv (createInstance cfg env t s).2 := by
  unfold createInstance
  cases ha : allocatePort cfg env.osFree s with
  | error e => exact h
  | ok pr =>
    obtain ⟨p, s1⟩ := pr
    obtain ⟨hinst, hleased, hnot, -⟩ := allocatePort_ok cfg env.osFree s p s1 ha
    have hrel : (releasePort p s1).instances = s.instances ∧
        (releasePort p s1).leased = s.leased := by
      constructor
      · exact hinst
      · show s1.leased.erase p = s.leased
        rw [hleased, List.erase_cons_head]
    cases hsp : env.spawnOk with
    | false =>
      exact poolInv_components s _ hrel.1 hrel.2 h
    | true =>
      cases hpr : env.probeOk with
      | false =>
        exact poolInv_components s _ hrel.1 hrel.2 h
      | true =>
        refine ⟨?_, ?_, ?_⟩
        · show ((mkRec t p s1.nextId env.now :: s1.instances).filter
            liveRec).Pairwise (fun i j => i.tenantId ≠ j.tenantId)
          rw [hinst, List.filter_cons]
          rw [show liveRec (mkRec t p s1.nextId env.now) = true from rfl]
          simp only [if_true]
          rw [List.pairwise_cons]
          constructor
          · intro j hj
            rw [List.mem_filter] at hj
            intro hE
            exact ((liveFor_eq_nil_iff s t).mp he j hj.1 hj.2) hE.symm
          · exact h.1
        · show ((mkRec t p s1.nextId env.now :: s1.instances).filter
            liveRec).Pairwise (fun i j => i.port ≠ j.port)
          rw [hinst, List.filter_cons]
          rw [show liveRec (mkRec t p s1.nextId env.now) = true from rfl]
          simp only [if_true]
          rw [List.pairwise_cons]
          constructor
          · intro j hj
            rw [List.mem_filter] at hj
            intro hE
            apply hnot
            rw [show (mkRec t p s1.nextId env.now).port = p from rfl] at hE
            rw [hE]
            exact h.2.2 j hj.1 hj.2
          · exact h.2.1
        · intro i hi hli
          show i.port ∈ s1.leased
          rw [hleased]
          have hi2 : i ∈ mkRec t p s1.nextId env.now :: s.instances := by
            rw [← hinst]; exact hi
          rcases List.mem_cons.mp hi2 with rfl | hi3
          · exact List.mem_cons_self _ _
          · exact List.mem_cons_of_mem _ (h.2.2 i hi3 hli)

theorem poolInv_touch (a n : Nat) (s : PoolState) (h : poolInv s) :
    poolInv { s with instances := s.instances.map (touchRec a n) } := by
  have hfil : (s.instances.map (touchRec a n)).filter liveRec
      = (s.instances.filter liveRec).map (touchRec a n) := by
    rw [List.filter_map]
    congr 1
    apply List.filter_congr
    intro x _
    exact liveRec_touchRec a n x
  refine ⟨?_, ?_, ?_⟩
  · show ((s.instances.map (touchRec a n)).filter liveRec).Pairwise
      (fun i j => i.tenantId ≠ j.tenantId)
    rw [hfil, List.pairwise_map]
    apply h.1.imp
    intro x y hxy
    rw [tenantId_touchRec, tenantId_touchRec]
    exact hxy
  · show ((s.instances.map (touchRec a n)).filter liveRec).Pairwise
      (fun i j => i.port ≠ j.port)
    rw [hfil, List.pairwise_map]
    apply h.2.1.imp
    intro x y hxy
    rw [port_touchRec, port_touchRec]
    exact hxy
  · intro i hi hli
    simp only [List.mem_map] at hi
    obtain ⟨j, hj, rfl⟩ := hi
    show (touchRec a n j).port ∈ s.leased
    rw [port_touchRec]
    rw [liveRec_touchRec] at hli
    exact h.2.2 j hj hli

theorem poolInv_getOrCreate (cfg : PoolConfig) (env : CreationEnv)
    (t : String) (s : PoolState) (h : poolInv s) :
    poolInv (getOrCreateInstance cfg env t s).2 := by
  unfold getOrCreateInstance
  cases hl : liveFor s t with
  | nil => exact poolInv_create cfg env t s h hl
  | cons i rest =>
    cases hh : env.healthExisting with
    | true => exact poolInv_touch i.instId env.now s h
    | false =>
      exact poolInv_create cfg env t (destroyInstance t s)
        (poolInv_destroy t h) (liveFor_destroy t s)

theorem poolInv_reapOne (hf : InstanceRec → Bool) (now : Nat)
    (cfg : PoolConfig) (s : PoolState) (i : InstanceRec) (h : poolInv s) :
    poolInv (reapOne hf now cfg s i) := by
  unfold reapOne
  split
  · exact h
  · split
    · exact poolInv_destroy _ h
    · split
      · exact poolInv_destroy _ h
      · exact h

theorem poolInv_foldl_reapOne (hf : InstanceRec → Bool) (now : Nat)
    (cfg : PoolConfig) :
    ∀ (l : List InstanceRec) (s : PoolState), poolInv s →
      poolInv (l.foldl (reapOne hf now cfg) s) := by
  intro l
  induction l with
  | nil => intro s h; exact h
  | cons i l ih =>
    intro s h
    exact ih _ (poolInv_reapOne hf now cfg s i h)

theorem poolInv_applyOp (cfg : PoolConfig) (s : PoolState) (op : PoolOp)
    (h : poolInv s) : poolInv (applyOp cfg s op) := by
  cases op with
  | getOrCreate env t => exact poolInv_getOrCreate cfg env t s h
  | destroy t => exact poolInv_destroy t h
  | reap hf now => exact poolInv_foldl_reapOne hf now cfg s.instances s h

theorem poolInv_init : poolInv initState := by
  refine ⟨?_, ?_, ?_⟩
  · exact List.Pairwise.nil
  · exact List.Pairwise.nil
  · intro i hi
    cases hi

theorem poolInv_runOps (cfg : PoolConfig) (ops : List PoolOp) :
    poolInv (runOps cfg ops) := by
  have main : ∀ (l : List PoolOp) (s : PoolState), poolInv s →
      poolInv (l.foldl (applyOp cfg) s) := by
    intro l
    induction l with
    | nil => intro s h; exact h
    | cons op l ih =>
      intro s h
      exact ih _ (poolInv_applyOp cfg s op h)
  exact main ops initState poolInv_init

/-- C1: at every observation point (every state reachable from startup
by get-or-create, destroy and Reaper operations) each tenant has at most
one live instance in the registry, and every single operation preserves
the registry invariant. -/
theorem one_live_instance_per_tenant :
    (∀ (cfg : PoolConfig) (ops : List PoolOp),
      ((runOps cfg ops).instances.filter liveRec).Pairwise
        (fun i j => i.tenantId ≠ j.tenantId)) ∧
    (∀ (cfg : PoolConfig) (s : PoolState) (op : PoolOp),
      poolInv s → poolInv (applyOp cfg s op)) :=
  ⟨fun cfg ops => (poolInv_runOps cfg ops).1,
   fun cfg s op h => poolInv_applyOp cfg s op h⟩

/-- C2: at every observation point no port is leased by two live
instances (live ports are pairwise distinct and each lies in the leased
set), and the allocator never hands out a port that is already
leased. -/
theorem no_port_double_lease :
    (∀ (cfg : PoolConfig) (ops : List PoolOp),
      ((runOps cfg ops).instances.filter liveRec).Pairwise
        (fun i j => i.port ≠ j.port) ∧
      (∀ i ∈ (runOps cfg ops).instances, liveRec i = true →
        i.port ∈ (runOps cfg ops).leased)) ∧
    (∀ (cfg : PoolConfig) (osFree : Nat → Bool) (s : PoolState)
      (p : Nat) (s2 : PoolState),
      allocatePort cfg osFree s = Except.ok (p, s2) → p ∉ s.leased) :=
  ⟨fun cfg ops => (poolInv_runOps cfg ops).2,
   fun cfg osFree s p s2 h => (allocatePort_ok cfg osFree s p s2 h).2.2.1⟩

theorem createInstance_error (cfg : PoolConfig) (env : CreationEnv)
    (t : String) (s : PoolState) (e : PoolError) (s2 : PoolState)
    (h : createInstance cfg env t s = (Except.error e, s2)) :
    s2.instances = s.instances ∧ ∀ p ∈ s2.leased, p ∈ s.leased := by
  unfold createInstance at h
  split at h
  · next e2 ha =>
    cases h
    exact ⟨rfl, fun p hp => hp⟩
  · next p s1 ha =>
    obtain ⟨hinst, hleased, hnot, -⟩ := allocatePort_ok cfg env.osFree s p s1 ha
    split at h
    · cases h
      refine ⟨hinst, ?_⟩
      intro q hq
      have : q ∈ s1.leased.erase p := hq
      rw [hleased, List.erase_cons_head] at this
      exact this
    · split at h
      · cases h
        refine ⟨hinst, ?_⟩
        intro q hq
        have : q ∈ s1.leased.erase p := hq
        rw [hleased, List.erase_cons_head] at this
        exact this
      · cases h

theorem liveFor_congr (s s2 : PoolState) (t : String)
    (h : s2.instances = s.instances) : liveFor s2 t = liveFor s t := by
  unfold liveFor
  rw [h]

/-- C5: whenever get-or-create fails — port exhaustion, spawn failure or
health-probe timeout — the typed error propagates with the tenant's
registry slot left empty (no live instance for the tenant) and no port
still held beyond those already leased before the call. -/
theorem creation_failure_releases_and_empties
    (cfg : PoolConfig) (env : CreationEnv) (t : String) (s : PoolState)
    (e : PoolError) (s2 : PoolState)
    (h : getOrCreateInstance cfg env t s = (Except.error e, s2)) :
    liveFor s2 t = [] ∧ ∀ p ∈ s2.leased, p ∈ s.leased := by
  unfold getOrCreateInstance at h
  split at h
  · next i rest hl =>
    split at h
    · cases h
    · obtain ⟨hinst, hsub⟩ := createInstance_error cfg env t
        (destroyInstance t s) e s2 h
      refine ⟨?_, ?_⟩
      · rw [liveFor_congr (destroyInstance t s) s2 t hinst]
        exact liveFor_destroy t s
      · intro p hp
        exact mem_of_mem_foldl_erase _ _ _ (hsub p hp)
  · next hl =>
    obtain ⟨hinst, hsub⟩ := createInstance_error cfg env t s e s2 h
    refine ⟨?_, hsub⟩
    rw [liveFor_congr s s2 t hinst]
    exact hl

/-- C5 witness: with an empty port range the creation fails with
`NoPortsAvailable` on the empty pool, leaving the slot empty and the
leased set unchanged. -/
theorem creation_failure_releases_and_empties_witness :
    liveFor initState "t" = [] ∧
      ∀ p ∈ initState.leased, p ∈ initState.leased :=
  creation_failure_releases_and_empties cfg0 env0 "t" initState
    PoolError.noPortsAvailable initState rfl

/-- C6: destroying a tenant twice in succession yields exactly the state
of destroying it once — the pool's destroy is total (it never throws)
and idempotent. -/
theorem destroy_idempotent :
    ∀ (t : String) (s : PoolState),
      destroyInstance t (destroyInstance t s) = destroyInstance t s := by
  intro t s
  have hvict := liveFor_destroy t s
  show { destroyInstance t s with
      instances := (destroyInstance t s).instances.map (destroyMark t),
      leased := (liveFor (destroyInstance t s) t).foldl
        (fun acc v => acc.erase v.port) (destroyInstance t s).leased }
    = destroyInstance t s
  rw [hvict]
  simp only [List.foldl_nil]
  have hmap : (destroyInstance t s).instances.map (destroyMark t)
      = (destroyInstance t s).instances := by
    show (s.instances.map (destroyMark t)).map (destroyMark t)
      = s.instances.map (destroyMark t)
    rw [List.map_map]
    exact List.map_eq_map_iff.mpr (fun a _ => destroyMark_idem t a)
  rw [hmap]

/-- C7: `allocate()` fails with `NoPortsAvailable` exactly when every
port of the configured range is already leased or reported unavailable
by the OS — never before the full range has been tried; releasing a
never-leased or already-released port is a no-op; and concretely, with a
range of size 3, three allocations succeed, a fourth fails with
`NoPortsAvailable`, and after one release an allocation succeeds
again. -/
theorem allocate_exhaustion_and_release_noop :
    (∀ (cfg : PoolConfig) (osFree : Nat → Bool) (s : PoolState),
      allocatePort cfg osFree s = Except.error PoolError.noPortsAvailable ↔
        ∀ p ∈ portRange cfg, p ∈ s.leased ∨ osFree p = false) ∧
    (∀ (p : Nat) (s : PoolState), p ∉ s.leased → releasePort p s = s) ∧
    allocatePort cfg3 osAll initState = Except.ok (9000, sAfter1) ∧
    allocatePort cfg3 osAll sAfter1 = Except.ok (9001, sAfter2) ∧
    allocatePort cfg3 osAll sAfter2 = Except.ok (9002, sAfter3) ∧
    allocatePort cfg3 osAll sAfter3 = Except.error PoolError.noPortsAvailable ∧
    (∃ s4, allocatePort cfg3 osAll (releasePort 9001 sAfter3) =
      Except.ok (9001, s4)) := by
  refine ⟨?_, ?_, rfl, rfl, rfl, rfl, ⟨_, rfl⟩⟩
  · intro cfg osFree s
    unfold allocatePort
    cases hf : findPort osFree s.leased (scanOrder cfg s.cursor) with
    | none =>
      constructor
      · intro _ p hp
        have := (findPort_none osFree s.leased _).mp hf p
          (List.mem_rotate.mpr hp)
        exact this
      · intro _; rfl
    | some p =>
      constructor
      · intro h; exact Except.noConfusion h
      · intro hR
        exfalso
        obtain ⟨h1, h2, h3⟩ := findPort_some osFree s.leased _ p hf
        rcases hR p (List.mem_rotate.mp h1) with hq | hq
        · have hq2 : s.leased.contains p = true := List.elem_iff.mpr hq
          rw [hq2] at h2
          cases h2
        · rw [h3] at hq
          cases hq
  · intro p s hp
    show { s with leased := s.leased.erase p } = s
    rw [List.erase_of_not_mem hp]

theorem concInv_set_preserve (s : ConcState) (k : Nat) (v : CallerPhase)
    (h : concInv s) (ph : CallerPhase) (hk : s.callers.get? k = some ph)
    (hph : ph ≠ CallerPhase.creating) (hv : v ≠ CallerPhase.creating)
    (hdone : ∀ r, v = CallerPhase.done r → s.registered = some r) :
    concInv { s with callers := s.callers.set k v } := by
  obtain ⟨h1, h2, h3, h4, h5, h6⟩ := h
  refine ⟨?_, ?_, ?_, h4, h5, ?_⟩
  · intro i j hi hj
    by_cases hik : i = k
    · subst hik
      rw [List.get?_set_eq_of_lt] at hi
      · exact absurd (Option.some.inj hi) hv
      · exact (List.get?_eq_some.mp hk).1
    · by_cases hjk : j = k
      · subst hjk
        rw [List.get?_set_eq_of_lt] at hj
        · exact absurd (Option.some.inj hj) hv
        · exact (List.get?_eq_some.mp hk).1
      · rw [List.get?_set_ne _ _ (fun hE => hik hE.symm)] at hi
        rw [List.get?_set_ne _ _ (fun hE => hjk hE.symm)] at hj
        exact h1 i j hi hj
  · intro hf i
    by_cases hik : i = k
    · subst hik
      rw [List.get?_set_eq_of_lt]
      · intro hE; exact hv (Option.some.inj hE)
      · exact (List.get?_eq_some.mp hk).1
    · rw [List.get?_set_ne _ _ (fun hE => hik hE.symm)]
      exact h2 hf i
  · intro ht
    obtain ⟨i, hi⟩ := h3 ht
    have hik : i ≠ k := by
      intro hE
      subst hE
      rw [hk] at hi
      exact hph (Option.some.inj hi)
    exact ⟨i, by rw [List.get?_set_ne _ _ (fun hE => hik hE.symm)]; exact hi⟩
  · intro ph2 hm r hd
    rcases List.mem_or_eq_of_mem_set hm with hmem | rfl
    · exact h6 ph2 hmem r hd
    · exact hdone r hd

theorem concInv_step (s : ConcState) (k : Nat) (h : concInv s) :
    concInv (stepConc s k) := by
  obtain ⟨cs, fl, reg, sc, nr⟩ := s
  obtain ⟨h1, h2, h3, h4, h5, h6⟩ := h
  dsimp only at h1 h2 h3 h4 h5 h6
  unfold stepConc
  cases hk : cs.get? k with
  | none => exact ⟨h1, h2, h3, h4, h5, h6⟩
  | some ph =>
    have hklen : k < cs.length := (List.get?_eq_some.mp hk).1
    cases ph with
    | idle =>
      cases reg with
      | some r =>
        exact concInv_set_preserve ⟨cs, fl, some r, sc, nr⟩ k
          (CallerPhase.done r) ⟨h1, h2, h3, h4, h5, h6⟩ CallerPhase.idle hk
          (by intro hE; cases hE) (by intro hE; cases hE)
          (fun r2 hE => by cases hE; rfl)
      | none =>
        cases fl with
        | true =>
          exact concInv_set_preserve ⟨cs, true, none, sc, nr⟩ k
            CallerPhase.waiting ⟨h1, h2, h3, h4, h5, h6⟩ CallerPhase.idle hk
            (by intro hE; cases hE) (by intro hE; cases hE)
            (fun r2 hE => by cases hE)
        | false =>
          show concInv ⟨cs.set k CallerPhase.creating, true, none, sc + 1, nr⟩
          refine ⟨?_, ?_, ?_, ?_, ?_, ?_⟩
          · intro i j hi hj
            by_cases hik : i = k
            · by_cases hjk : j = k
              · rw [hik, hjk]
              · exfalso
                rw [List.get?_set_ne _ _ (fun hE => hjk hE.symm)] at hj
                exact h2 rfl j hj
            · exfalso
              rw [List.get?_set_ne _ _ (fun hE => hik hE.symm)] at hi
              exact h2 rfl i hi
          · intro hf
            exact Bool.noConfusion hf
          · intro _
            exact ⟨k, List.get?_set_eq_of_lt _ hklen⟩
          · intro _
            rfl
          · show sc + 1 = 1 + (if (none : Option Nat).isSome then 1 else 0)
            simp at h5
            simp [h5]
          · intro ph2 hm r hd
            rcases List.mem_or_eq_of_mem_set hm with hmem | rfl
            · exact h6 ph2 hmem r hd
            · cases hd
    | waiting =>
      cases reg with
      | some r =>
        exact concInv_set_preserve ⟨cs, fl, some r, sc, nr⟩ k
          (CallerPhase.done r) ⟨h1, h2, h3, h4, h5, h6⟩ CallerPhase.waiting hk
          (by intro hE; cases hE) (by intro hE; cases hE)
          (fun r2 hE => by cases hE; rfl)
      | none =>
        exact concInv_set_preserve ⟨cs, fl, none, sc, nr⟩ k
          CallerPhase.waiting ⟨h1, h2, h3, h4, h5, h6⟩ CallerPhase.waiting hk
          (by intro hE; cases hE) (by intro hE; cases hE)
          (fun r2 hE => by cases hE)
    | creating =>
      have hfl : fl = true := by
        cases fl with
        | true => rfl
        | false => exact absurd hk (h2 rfl k)
      subst hfl
      have hr : reg = none := h4 rfl
      subst hr
      show concInv ⟨cs.set k (CallerPhase.done nr), false, some nr, sc, nr + 1⟩
      refine ⟨?_, ?_, ?_, ?_, ?_, ?_⟩
      · intro i j hi hj
        exfalso
        by_cases hik : i = k
        · subst hik
          rw [List.get?_set_eq_of_lt _ hklen] at hi
          exact CallerPhase.noConfusion (Option.some.inj hi)
        · rw [List.get?_set_ne _ _ (fun hE => hik hE.symm)] at hi
          exact hik (h1 i k hi hk)
      · intro _ i
        by_cases hik : i = k
        · subst hik
          rw [List.get?_set_eq_of_lt _ hklen]
          intro hE
          exact CallerPhase.noConfusion (Option.some.inj hE)
        · rw [List.get?_set_ne _ _ (fun hE => hik hE.symm)]
          intro hE
          exact hik (h1 i k hE hk)
      · intro hT
        exact Bool.noConfusion hT
      · intro hT
        exact Bool.noConfusion hT
      · show sc = 0 + (if (some nr).isSome then 1 else 0)
        simp at h5
        simp [h5]
      · intro ph2 hm r hd
        rcases List.mem_or_eq_of_mem_set hm with hmem | rfl
        · exfalso
          have := h6 ph2 hmem r hd
          exact Option.noConfusion this
        · cases hd
          rfl
    | done r0 =>
      exact concInv_set_preserve ⟨cs, fl, reg, sc, nr⟩ k
        (CallerPhase.done r0) ⟨h1, h2, h3, h4, h5, h6⟩ (CallerPhase.done r0) hk
        (by intro hE; cases hE) (by intro hE; cases hE)
        (fun r2 hE => by
          cases hE
          exact h6 (CallerPhase.done r0) (List.get?_mem hk) r0 rfl)

theorem concInv_init (n : Nat) : concInv (concInit n) := by
  have hget : ∀ i : Nat,
      (concInit n).callers.get? i ≠ some CallerPhase.creating := by
    intro i
    show (List.replicate n CallerPhase.idle).get? i ≠ some CallerPhase.creating
    rw [List.get?_eq_getElem?, List.getElem?_replicate]
    split
    · intro hE
      exact CallerPhase.noConfusion (Option.some.inj hE)
    · intro hE
      exact Option.noConfusion hE
  refine ⟨?_, fun _ i => hget i, ?_, ?_, rfl, ?_⟩
  · intro i j hi hj
    exact absurd hi (hget i)
  · intro hT
    exact Bool.noConfusion hT
  · intro _
    rfl
  · intro ph hm r hd
    have h2 := List.eq_of_mem_replicate
      (show ph ∈ List.replicate n CallerPhase.idle from hm)
    rw [h2] at hd
    exact CallerPhase.noConfusion hd

theorem concInv_run (sched : List Nat) :
    ∀ s : ConcState, concInv s → concInv (runConc sched s) := by
  induction sched with
  | nil => intro s h; exact h
  | cons k sched ih =>
    intro s h
    exact ih _ (concInv_step s k h)

theorem length_stepConc (s : ConcState) (k : Nat) :
    (stepConc s k).callers.length = s.callers.length := by
  obtain ⟨cs, fl, reg, sc, nr⟩ := s
  unfold stepConc
  cases hk : cs.get? k with
  | none => rfl
  | some ph =>
    cases ph with
    | idle =>
      cases reg with
      | some r => exact List.length_set cs k _
      | none =>
        cases fl with
        | true => exact List.length_set cs k _
        | false => exact List.length_set cs k _
    | waiting =>
      cases reg with
      | some r => exact List.length_set cs k _
      | none => exact List.length_set cs k _
    | creating => exact List.length_set cs k _
    | done r0 => exact List.length_set cs k _

theorem length_runConc (sched : List Nat) :
    ∀ s : ConcState, (runConc sched s).callers.length = s.callers.length := by
  induction sched with
  | nil => intro s; rfl
  | cons k sched ih =>
    intro s
    rw [show runConc (k :: sched) s = runConc sched (stepConc s k) from rfl]
    rw [ih (stepConc s k), length_stepConc]

/-- C3: for every number of concurrent get-or-create callers for one
tenant and every interleaving, at most one caller holds the in-flight
creation at any time (no two worker processes are ever spawned
concurrently), the spawn count never exceeds one, and once all callers
have finished, exactly one worker process was spawned and every caller
holds a reference to that single instance. -/
theorem concurrent_getOrCreate_single_spawn :
    ∀ (n : Nat) (sched : List Nat),
      (∀ i j : Nat,
        (runConc sched (concInit n)).callers.get? i =
          some CallerPhase.creating →
        (runConc sched (concInit n)).callers.get? j =
          some CallerPhase.creating → i = j) ∧
      (runConc sched (concInit n)).spawnCount ≤ 1 ∧
      (0 < n → allDone (runConc sched (concInit n)) →
        (runConc sched (concInit n)).spawnCount = 1 ∧
        ∃ r, ∀ ph ∈ (runConc sched (concInit n)).callers,
          ph = CallerPhase.done r) := by
  intro n sched
  obtain ⟨h1, h2, h3, h4, h5, h6⟩ := concInv_run sched (concInit n) (concInv_init n)
  refine ⟨h1, ?_, ?_⟩
  · rw [h5]
    cases hfl : (runConc sched (concInit n)).inflight with
    | true =>
      rw [h4 hfl]
      simp
    | false =>
      cases (runConc sched (concInit n)).registered <;> simp
  · intro hn hall
    have hfl : (runConc sched (concInit n)).inflight = false := by
      cases hfl2 : (runConc sched (concInit n)).inflight with
      | false => rfl
      | true =>
        exfalso
        obtain ⟨i, hi⟩ := h3 hfl2
        obtain ⟨r, hr⟩ := hall CallerPhase.creating (List.get?_mem hi)
        exact CallerPhase.noConfusion hr
    have hlen : 0 < (runConc sched (concInit n)).callers.length := by
      rw [length_runConc]
      show 0 < (List.replicate n CallerPhase.idle).length
      rw [List.length_replicate]
      exact hn
    obtain ⟨ph0, hph0⟩ : ∃ ph0,
        (runConc sched (concInit n)).callers.get? 0 = some ph0 := by
      rw [List.get?_eq_getElem?]
      exact ⟨_, List.getElem?_eq_getElem hlen⟩
    obtain ⟨r0, hr0⟩ := hall ph0 (List.get?_mem hph0)
    have hreg : (runConc sched (concInit n)).registered = some r0 :=
      h6 ph0 (List.get?_mem hph0) r0 hr0
    constructor
    · rw [h5, hfl, hreg]
      rfl
    · refine ⟨r0, ?_⟩
      intro ph hm
      obtain ⟨r, hr⟩ := hall ph hm
      have := h6 ph hm r hr
      rw [hreg] at this
      rw [hr]
      rw [Option.some.inj this]
